import Mathlib

/-! cabourotte: healthcheck results and the exporter component.

A shallow embedding of `healthcheck/result.go` (the `Result` record, `Result.Equals`,
`NewResult`) and of `exporter/root.go` (the exporter `Component`: `Start`, its drain
loop, `Stop`), followed by the properties established about them.

Go values are embedded as follows.

* `string` is `String`; only `==`/`!=` is used on strings.
* `int64` is `Int`; only `==`/`!=` is used on it, so no wrap-around is involved.
* `float64` is its IEEE-754 binary64 bit pattern; `==` is the IEEE comparison.
* `interface{}` is `Iface`; `==` follows the Go rules for interface values and may panic.
* `map[string]string` is `Option GoMap`: `none` is the nil map, `some m` a map whose
  entries are listed in the order in which one `range` statement enumerates them.
* `error` is `Option GoError`, `none` being `nil`.
* A Go panic is `Except.error`, a normal return is `Except.ok`.
-/

namespace Cabourotte

/-! ## Go primitives -/

deriving instance DecidableEq for Except

/-- A Go `float64`, given by its IEEE-754 binary64 bit pattern (the low 64 bits of `bits`). -/
structure Float64 where
  bits : Nat
  deriving DecidableEq

namespace Float64

/-- The 64-bit pattern of the number. -/
def raw (f : Float64) : Nat := f.bits % 2 ^ 64

/-- The 11-bit biased exponent field. -/
def exponent (f : Float64) : Nat := (f.raw / 2 ^ 52) % 2 ^ 11

/-- The 52-bit fraction field. -/
def fraction (f : Float64) : Nat := f.raw % 2 ^ 52

/-- NaN: all exponent bits set and a non-zero fraction. -/
def isNaN (f : Float64) : Bool := f.exponent == 2047 && f.fraction != 0

/-- Positive or negative zero: every bit but the sign bit is clear. -/
def isZero (f : Float64) : Bool := f.raw % 2 ^ 63 == 0

/-- Go `a == b` on `float64`: NaN equals nothing, the two zeros are equal, and any other
two numbers are equal exactly when their bit patterns agree. -/
def eq (a b : Float64) : Bool :=
  !a.isNaN && !b.isNaN && (a.raw == b.raw || (a.isZero && b.isZero))

/-- Go `a != b` on `float64`. -/
def ne (a b : Float64) : Bool := !(eq a b)

end Float64

/-- The dynamic value held by a Go `interface{}`: its dynamic type, by name, and its
dynamic value. Values of string, integer, boolean and `float64` kind are kept by value,
pointers by address (reference equality), and values whose dynamic type is not comparable
(slices, maps, functions) by the name of that type only: comparing two of them never gets
as far as looking at their contents. -/
inductive Iface where
  | null
  | str (type : String) (s : String)
  | int (type : String) (n : Int)
  | boolean (type : String) (b : Bool)
  | float (type : String) (f : Float64)
  | pointer (type : String) (addr : Nat)
  | uncomparable (type : String)
  deriving DecidableEq

namespace Iface

/-- Go `a == b` on interface values: both nil, or identical dynamic types and equal
dynamic values; two values of one and the same non-comparable dynamic type cause a
run-time panic. -/
def eq : Iface → Iface → Except String Bool
  | null, null => .ok true
  | str s a, str t b => .ok (s == t && a == b)
  | int s a, int t b => .ok (s == t && a == b)
  | boolean s a, boolean t b => .ok (s == t && a == b)
  | float s a, float t b => .ok (s == t && Float64.eq a b)
  | pointer s a, pointer t b => .ok (s == t && a == b)
  | uncomparable s, uncomparable t =>
    if s == t then .error ("runtime error: comparing uncomparable type " ++ s) else .ok false
  | _, _ => .ok false

end Iface

/-- The entries of a non-nil Go `map[string]string`. Keys are unique; the order of the list
is the order in which a `range` statement visits the entries. -/
structure GoMap where
  entries : List (String × String)
  nodup : (entries.map Prod.fst).Nodup
  deriving DecidableEq

/-- Go `len(m)`; the nil map has length 0. -/
def len : Option GoMap → Nat
  | none => 0
  | some m => m.entries.length

/-- The entries visited by `for k, value := range m`; none for the nil map. -/
def rangeOf : Option GoMap → List (String × String)
  | none => []
  | some m => m.entries

/-- Go `m[k]` in an expression: the value stored under `k`, or the zero value `""` when the
key is missing or the map is nil. -/
def index (m : Option GoMap) (k : String) : String :=
  match (rangeOf m).find? (fun e => e.1 == k) with
  | some e => e.2
  | none => ""

/-- A Go `error` value that is not nil: either a leaf error with its text, or an error
wrapped with a message by `github.com/pkg/errors`. -/
inductive GoError where
  | plain (text : String)
  | withMessage (msg : String) (cause : GoError)
  deriving DecidableEq

namespace GoError

/-- The method `Error()`: the text of a leaf error; for a wrapped error the message, a
colon and a blank, then the text of the cause. -/
def Error : GoError → String
  | plain text => text
  | withMessage msg cause => msg ++ ": " ++ cause.Error

end GoError

/-- The function `errors.Wrapf(err, msg)` of `github.com/pkg/errors` with a format that has
no verbs: nil for a nil `err`, otherwise `err` annotated with `msg`. -/
def Wrapf (err : Option GoError) (msg : String) : Option GoError :=
  match err with
  | none => none
  | some e => some (GoError.withMessage msg e)

/-! ## healthcheck/result.go -/

/-- Result represents the result of an healthcheck. -/
structure Result where
  Name : String
  Summary : Iface
  Labels : Option GoMap
  Success : Bool
  HealthcheckTimestamp : Int
  Message : String
  Duration : Float64
  deriving DecidableEq

/-- The loop `for k, value := range r.Labels { if value != v.Labels[k] { return false } }`
run over the entries still to visit; `true` means the loop ran to its end. -/
def labelsLoop (vLabels : Option GoMap) : List (String × String) → Bool
  | [] => true
  | (k, value) :: rest =>
    if value != index vLabels k then false else labelsLoop vLabels rest

/-- Equals implements Equals for Result. -/
def Equals (r v : Result) : Except String Bool :=
  if r.Name != v.Name then .ok false
  else
    match Iface.eq r.Summary v.Summary with
    | .error p => .error p
    | .ok summaryEq =>
      if !summaryEq then .ok false
      else if r.Success != v.Success then .ok false
      else if r.HealthcheckTimestamp != v.HealthcheckTimestamp then .ok false
      else if r.Message != v.Message then .ok false
      else if Float64.ne r.Duration v.Duration then .ok false
      else if len r.Labels != len v.Labels then .ok false
      else if !labelsLoop v.Labels (rangeOf r.Labels) then .ok false
      else .ok true

/-- Modelled from the spec: the `Healthcheck` interface is declared outside the two source
files; `NewResult` uses its methods `Name()`, `Summary()` and `GetLabels()`, which the spec
describes as the check source supplying name, summary and labels. The fields are what the
three calls return. -/
structure Healthcheck where
  Name : String
  Summary : Iface
  GetLabels : Option GoMap

/-- A `time.Time` as read from the host clock: whole seconds since the epoch and the
nanoseconds within the second. -/
structure Time where
  sec : Int
  nsec : Nat

/-- The method `Time.Unix()`: the whole seconds since the epoch. -/
def Time.Unix (t : Time) : Int := t.sec

/-- NewResult build a a new result for an healthcheck. The reading `now` of the host clock
(`time.Now()`) is an argument. -/
def NewResult (healthcheck : Healthcheck) (duration : Float64) (err : Option GoError)
    (now : Time) : Result :=
  let result : Result :=
    { Name := healthcheck.Name
      Summary := healthcheck.Summary
      Labels := healthcheck.GetLabels
      Success := false
      HealthcheckTimestamp := now.Unix
      Message := ""
      Duration := duration }
  match err with
  | some e => { result with Success := false, Message := e.Error }
  | none => { result with Success := true, Message := "success" }

/-! ## exporter/root.go -/

/-- Exporter the exporter interface. Its implementations live outside the two source files:
each method is taken as a transformer of the state `W` of the external collaborators (the
sinks and the store) that also yields the `error` the call returns. -/
structure Exporter (W : Type) where
  Start : W → W × Option GoError
  Stop : W → W × Option GoError
  Push : Result → W → W × Option GoError

/-- Modelled from the spec: the package `memorystore` is outside the two source files; the
spec describes the store as anything capable of `Start()` and `Add(Result)` with no return
value. The two methods are transformers of the state `W` of the external collaborators.
`Add` receives a pointer, `none` being the nil pointer. -/
structure MemoryStore (W : Type) where
  Start : W → W
  Add : Option Result → W → W

/-- One call made by the component on a collaborator, in the order of execution: a log
line, a call on the store, or a call on the exporter at the given position of
`Component.Exporters` together with the `error` that call returned. -/
inductive Event where
  | info (msg : String) (fields : List (String × String))
  | storeStart
  | storeAdd (message : Option Result)
  | push (exporter : Nat) (message : Result) (ret : Option GoError)
  | stop (exporter : Nat) (ret : Option GoError)
  deriving DecidableEq

/-- Component the exporter component: the fields fixed at construction. `timestampString`
renders the `date` field of a log line (`message.Timestamp.String()` in the source, a
method declared outside the two source files). The channel, the tomb and the logger
output are in `State`. -/
structure Component (W : Type) where
  timestampString : Result → String
  Exporters : List (Exporter W)
  MemoryStore : MemoryStore W

/-- The mutable state around a component.

* `world`: the state of the store and of the exporters.
* `ChanResult`: the values sent on the channel and not yet received, oldest first
  (`none` is a nil pointer).
* `alive`, `dying`, `dead`: the tomb `t` (`gopkg.in/tomb.v2`): the number of goroutines
  started with `Go` that have not returned, whether the `Dying` channel is closed, whether
  the `Dead` channel is closed.
* `trace`: the calls made so far, oldest first. -/
structure State (W : Type) where
  world : W
  ChanResult : List (Option Result)
  alive : Nat
  dying : Bool
  dead : Bool
  trace : List Event

/-- The ready case with which one execution of the `select` statement proceeds. -/
inductive Select where
  | message
  | dying
  deriving DecidableEq

/-- Appends one event to the trace. -/
def State.emit {W : Type} (s : State W) (e : Event) : State W :=
  { s with trace := s.trace ++ [e] }

/-- The loop `for _, exporter := range c.Exporters { exporter.Push(message) }` over the
exporters still to visit, the first of them at position `i`. The value returned by `Push`
is dropped. -/
def pushLoop {W : Type} (message : Result) : List (Exporter W) → Nat → State W → State W
  | [], _, s => s
  | exporter :: rest, i, s =>
    let (w, ret) := exporter.Push message s.world
    pushLoop message rest (i + 1) ({ s with world := w }.emit (Event.push i message ret))

/-- The body of `case message := <-c.ChanResult:` for the received pointer `message`. -/
def onMessage {W : Type} (c : Component W) (message : Option Result) (s : State W) :
    Except String (State W) :=
  let s1 := { s with world := c.MemoryStore.Add message s.world }.emit (Event.storeAdd message)
  match message with
  | none => .error "runtime error: invalid memory address or nil pointer dereference"
  | some m =>
    let s2 :=
      if m.Success then
        s1.emit (Event.info "Healthcheck successful"
          [("name", m.Name), ("date", c.timestampString m)])
      else
        s1.emit (Event.info "healthcheck failed"
          [("name", m.Name), ("extra", m.Message), ("date", c.timestampString m)])
    .ok (pushLoop m c.Exporters 0 s2)

/-- What the tomb does when a goroutine started with `Go` returns nil: one goroutine less
is alive, and when none is left the tomb is dying and dead. -/
def State.goroutineReturns {W : Type} (s : State W) : State W :=
  if s.alive - 1 = 0 then { s with alive := 0, dying := true, dead := true }
  else { s with alive := s.alive - 1 }

/-- One execution of the `select` statement by a goroutine running the loop of `Start`,
together with the body of the case it proceeds with. Without such a goroutine nothing
happens. A case that is not ready (nothing to receive, tomb not dying) leaves the goroutine
waiting. `case <-c.t.Dying(): return nil` ends the goroutine. The pass is taken as one
step: this is what the code does with a single loop goroutine (`alive = 1`, `Start` called
once); two goroutines started by two calls of `Start` could interleave their passes, and
the properties of the calls made by the loop are stated for `alive = 1`. -/
def iteration {W : Type} (c : Component W) (sel : Select) (s : State W) :
    Except String (State W) :=
  if s.alive = 0 then .ok s
  else
    match sel with
    | Select.message =>
      match s.ChanResult with
      | [] => .ok s
      | message :: rest => onMessage c message { s with ChanResult := rest }
    | Select.dying =>
      if s.dying then .ok s.goroutineReturns else .ok s

/-- The `for { select { ... } }` loop of `Start`, the runtime's successive choices among
the ready cases being given by the schedule. A panic ends the run. -/
def drain {W : Type} (c : Component W) : List Select → State W → Except String (State W)
  | [], s => .ok s
  | sel :: rest, s =>
    match iteration c sel s with
    | .error p => .error p
    | .ok s1 => drain c rest s1

/-- Start starts the exporter component. The goroutine handed to `c.t.Go` is counted in
`alive`; its loop is `drain`. `Go` panics on a tomb that is dead. -/
def Start {W : Type} (c : Component W) (s : State W) :
    Except String (State W × Option GoError) :=
  let s1 := s.emit (Event.info "Starting the exporters" [])
  let s2 := { s1 with world := c.MemoryStore.Start s1.world }.emit Event.storeStart
  if s2.dead then .error "tomb.Go called after all goroutines terminated"
  else .ok ({ s2 with alive := s2.alive + 1 }, none)

/-- The loop `for _, e := range c.Exporters { ... }` of `Stop` over the exporters still to
visit, the first of them at position `i`, with the value `Stop` returns. -/
def stopLoop {W : Type} : List (Exporter W) → Nat → State W → State W × Option GoError
  | [], _, s => (s, none)
  | e :: rest, i, s =>
    let (w, err) := e.Stop s.world
    let s1 := { s with world := w }.emit (Event.stop i err)
    match err with
    | some x => (s1, Wrapf (some x) "Fail to stop an exporter")
    | none => stopLoop rest (i + 1) s1

/-- The call `c.t.Kill(nil)`: the tomb is dying. -/
def State.Kill {W : Type} (s : State W) : State W := { s with dying := true }

/-- Stop the exporters. While `c.t.Wait()` blocks, the goroutines of the loop run on by the
schedule; `Wait` returns once the tomb is dead. `.ok none` means that `Wait` is still
blocked when the schedule is used up, `.error` that a goroutine has panicked. -/
def Stop {W : Type} (c : Component W) (sched : List Select) (s : State W) :
    Except String (Option (State W × Option GoError)) :=
  match drain c sched s.Kill with
  | .error p => .error p
  | .ok s2 =>
    if s2.dead then .ok (some (stopLoop c.Exporters 0 s2))
    else .ok none

/-! ## The specification's notions and the observations made on a trace -/

/-- Equality of two labels maps in the words of the specification: identical size, and
every key in one map exists in the other with an identical value. -/
def specLabelsEqual (a b : Option GoMap) : Bool :=
  len a == len b &&
    (rangeOf a).all (fun e => (rangeOf b).contains e) &&
    (rangeOf b).all (fun e => (rangeOf a).contains e)

/-- Equality of two Results in the words of the specification: name, summary, success,
timestamp, message and duration are all equal (by the `==` of their Go types) and the
labels are equal as sets of pairs. -/
def specEquals (r v : Result) : Bool :=
  r.Name == v.Name && (Iface.eq r.Summary v.Summary == .ok true) &&
    r.Success == v.Success && r.HealthcheckTimestamp == v.HealthcheckTimestamp &&
    r.Message == v.Message && Float64.eq r.Duration v.Duration &&
    specLabelsEqual r.Labels v.Labels

/-- What `Stop` would return on each exporter, were all of them stopped one after the
other in the order of `Component.Exporters`, starting from the state `w` of the
collaborators. Up to and including the first error these are the values the calls made by
`stopLoop` return. -/
def stopOutcomes {W : Type} : List (Exporter W) → W → List (Option GoError)
  | [], _ => []
  | e :: rest, w => (e.Stop w).2 :: stopOutcomes rest (e.Stop w).1

/-- The number of nil results that precede the first error in a list of results (its
length when there is no error): the position of the first failing exporter. -/
def leadingOk : List (Option GoError) → Nat
  | none :: rest => leadingOk rest + 1
  | _ => 0

/-- The exporter position and returned error of an `Exporter.Stop` call. -/
def Event.asStop : Event → Option (Nat × Option GoError)
  | Event.stop i ret => some (i, ret)
  | _ => none

/-- The argument of a `MemoryStore.Add` call. -/
def Event.asAdd : Event → Option (Option Result)
  | Event.storeAdd message => some message
  | _ => none

/-- The argument of a `Push` call on the exporter at the given position. -/
def Event.asPush (exporter : Nat) : Event → Option Result
  | Event.push i message _ => if i = exporter then some message else none
  | _ => none

/-- The `Exporter.Stop` calls of a trace, oldest first. -/
def stopCalls (trace : List Event) : List (Nat × Option GoError) :=
  trace.filterMap Event.asStop

/-- The `MemoryStore.Add` calls of a trace, oldest first. -/
def addCalls (trace : List Event) : List (Option Result) :=
  trace.filterMap Event.asAdd

/-- The `Push` calls received by the exporter at the given position, oldest first. -/
def pushCalls (exporter : Nat) (trace : List Event) : List Result :=
  trace.filterMap (Event.asPush exporter)

/-- A call made by the component on the store or on an exporter, without the value the
call returned. -/
inductive Call where
  | storeStart
  | add (message : Option Result)
  | push (exporter : Nat) (message : Result)
  | stop (exporter : Nat)
  deriving DecidableEq

/-- The call recorded by an event; a log line is no call on a collaborator. -/
def Event.asCall : Event → Option Call
  | Event.info _ _ => none
  | Event.storeStart => some Call.storeStart
  | Event.storeAdd message => some (Call.add message)
  | Event.push i message _ => some (Call.push i message)
  | Event.stop i _ => some (Call.stop i)

/-- The calls on the store and on the exporters of a trace, oldest first. -/
def calls (trace : List Event) : List Call :=
  trace.filterMap Event.asCall

/-- The calls the specification prescribes for one received Result with `k` exporters:
`Store.Add` first, then `Push` on the exporters at positions 0, 1, ..., `k - 1`. -/
def fanOut (k : Nat) (message : Result) : List Call :=
  Call.add (some message) :: (List.range k).map (fun i => Call.push i message)

/-- The exporter that acts on the collaborators as `e` does and whose `Push` returns nil. -/
def Exporter.pushSucceeds {W : Type} (e : Exporter W) : Exporter W :=
  { e with Push := fun message w => ((e.Push message w).1, none) }

/-- The component `c` with every `Push` succeeding. -/
def Component.pushSucceeds {W : Type} (c : Component W) : Component W :=
  { c with Exporters := c.Exporters.map Exporter.pushSucceeds }

/-- The six fields other than the labels compare equal with the `==` of their Go types. -/
def scalarsEqual (r v : Result) : Prop :=
  r.Name = v.Name ∧ Iface.eq r.Summary v.Summary = .ok true ∧ r.Success = v.Success ∧
    r.HealthcheckTimestamp = v.HealthcheckTimestamp ∧ r.Message = v.Message ∧
    Float64.eq r.Duration v.Duration = true

/-- The two labels maps contain exactly the same key/value pairs. -/
def samePairs (a b : Option GoMap) : Prop :=
  ∀ e : String × String, e ∈ rangeOf a ↔ e ∈ rangeOf b

/-- The effect of one call on the state of the collaborators: the call is made on the
store, or on the exporter at the given position of `Component.Exporters`. -/
def Call.apply {W : Type} (c : Component W) : Call → W → W
  | Call.storeStart, w => c.MemoryStore.Start w
  | Call.add message, w => c.MemoryStore.Add message w
  | Call.push i message, w =>
    match c.Exporters[i]? with
    | some e => (e.Push message w).1
    | none => w
  | Call.stop i, w =>
    match c.Exporters[i]? with
    | some e => (e.Stop w).1
    | none => w

/-- The state of the collaborators after the given calls have been made on them one after
the other. -/
def applyCalls {W : Type} (c : Component W) (cs : List Call) (w : W) : W :=
  cs.foldl (fun w k => k.apply c w) w

/-! ## Sample values -/

/-- The labels `{"a": ""}`. -/
def labelsA : GoMap := ⟨[("a", "")], by decide⟩

/-- The labels `{"b": ""}`. -/
def labelsB : GoMap := ⟨[("b", "")], by decide⟩

/-- The labels `{"b": "x"}`. -/
def labelsBx : GoMap := ⟨[("b", "x")], by decide⟩

/-- The labels `{"a": "y"}`. -/
def labelsAy : GoMap := ⟨[("a", "y")], by decide⟩

/-- A successful Result named `disk` with no summary, timestamp 0, duration +0 and the
given labels. -/
def sample (labels : Option GoMap) : Result :=
  { Name := "disk"
    Summary := Iface.null
    Labels := labels
    Success := true
    HealthcheckTimestamp := 0
    Message := "success"
    Duration := ⟨0⟩ }

/-- The Result of the scenario in the specification: name `disk`, success true, duration
0.01 (bit pattern `0x3F847AE147AE147B`). -/
def diskResult : Result := { sample none with Duration := ⟨0x3F847AE147AE147B⟩ }

/-- A quiet NaN. -/
def nan : Float64 := ⟨0x7FF8000000000000⟩

/-- The sample Result without labels whose duration is NaN. -/
def sampleNaN : Result := { sample none with Duration := nan }

/-- The sample Result without labels whose summary is a `float64` NaN. -/
def sampleNaNSummary : Result := { sample none with Summary := Iface.float "float64" nan }

/-- The sample Result without labels whose summary is a slice of strings. -/
def sampleSliceSummary : Result := { sample none with Summary := Iface.uncomparable "[]string" }

/-- A check source named `disk` without summary and labels. -/
def sampleCheck : Healthcheck := { Name := "disk", Summary := Iface.null, GetLabels := none }

/-- An exporter whose `Stop` returns the given value; every call on it is counted in the
state of the collaborators. -/
def sampleExporter (stopRet : Option GoError) : Exporter Nat :=
  { Start := fun w => (w + 1, none)
    Stop := fun w => (w + 1, stopRet)
    Push := fun _ w => (w + 1, none) }

/-- A component with two exporters: the first fails to stop, the second would stop. -/
def sampleComponent : Component Nat :=
  { timestampString := fun _ => "1970-01-01 00:00:00 +0000 UTC"
    Exporters := [sampleExporter (some (GoError.plain "boom")), sampleExporter none]
    MemoryStore := { Start := fun w => w, Add := fun _ w => w + 1 } }

/-- A started component with one Result waiting on the channel. -/
def sampleRunning : State Nat :=
  { world := 0, ChanResult := [some (sample none)], alive := 1, dying := false,
    dead := false, trace := [] }

/-- The state `sampleRunning` once the loop has taken the termination branch. -/
def sampleStopped : State Nat :=
  { world := 0, ChanResult := [some (sample none)], alive := 0, dying := true,
    dead := true, trace := [] }

/-- The labels `{"a": "1", "b": "2"}`, enumerated in this order. -/
def labelsAB : GoMap := ⟨[("a", "1"), ("b", "2")], by decide⟩

/-- The labels `{"a": "1", "b": "2"}`, enumerated in the other order. -/
def labelsBA : GoMap := ⟨[("b", "2"), ("a", "1")], by decide⟩

/-- The empty, non-nil labels map. -/
def labelsEmpty : GoMap := ⟨[], by decide⟩

/-- The Result of a failed check: name `disk`, success false, message `timeout`. -/
def failedResult : Result := { sample none with Success := false, Message := "timeout" }

/-- An exporter that records every call made on it, by name, in the state of the
collaborators, and whose `Push` returns the given value. -/
def recordingExporter (name : String) (pushRet : Option GoError) :
    Exporter (List String) :=
  { Start := fun w => (w ++ [name ++ ".Start"], none)
    Stop := fun w => (w ++ [name ++ ".Stop"], none)
    Push := fun message w => (w ++ [name ++ ".Push " ++ message.Message], pushRet) }

/-- A component whose store and two exporters record the calls made on them; the first
exporter fails on every `Push`. -/
def recordingComponent : Component (List String) :=
  { timestampString := fun _ => "1970-01-01 00:00:00 +0000 UTC"
    Exporters :=
      [recordingExporter "first" (some (GoError.plain "connection refused")),
        recordingExporter "second" none]
    MemoryStore :=
      { Start := fun w => w ++ ["store.Start"]
        Add := fun message w =>
          match message with
          | some r => w ++ ["store.Add " ++ r.Message]
          | none => w ++ ["store.Add nil"] } }

/-- The recording component, started once, with the given values waiting on the channel
and no call made yet. -/
def recordingRunning (inbox : List (Option Result)) : State (List String) :=
  { world := [], ChanResult := inbox, alive := 1, dying := false, dead := false, trace := [] }

/-! ## Lemmas on labels and on float comparison -/

theorem find?_key_of_mem (l : List (String × String)) (h : (l.map Prod.fst).Nodup)
    (k value : String) (hm : (k, value) ∈ l) :
    l.find? (fun e => e.1 == k) = some (k, value) := by
  induction l with
  | nil => simp at hm
  | cons e rest ih =>
    rw [List.map_cons, List.nodup_cons] at h
    rcases List.mem_cons.mp hm with he | hr
    · subst he
      simp
    · have hne : e.1 ≠ k := by
        intro hk
        apply h.1
        rw [hk]
        exact List.mem_map_of_mem Prod.fst hr
      rw [List.find?_cons_of_neg]
      · exact ih h.2 hr
      · simpa using hne

theorem index_of_mem (m : GoMap) (k value : String) (hm : (k, value) ∈ m.entries) :
    index (some m) k = value := by
  unfold index
  rw [show rangeOf (some m) = m.entries from rfl, find?_key_of_mem m.entries m.nodup k value hm]

theorem labelsLoop_eq_true_iff (vLabels : Option GoMap) (l : List (String × String)) :
    labelsLoop vLabels l = true ↔ ∀ e ∈ l, e.2 = index vLabels e.1 := by
  induction l with
  | nil => simp [labelsLoop]
  | cons e rest ih =>
    obtain ⟨k, value⟩ := e
    by_cases h : value = index vLabels k
    · simp [labelsLoop, ih, h]
    · simp [labelsLoop, h]

theorem labelsLoop_self (m : Option GoMap) : labelsLoop m (rangeOf m) = true := by
  rw [labelsLoop_eq_true_iff]
  intro e he
  cases m with
  | none => simp [rangeOf] at he
  | some m => exact (index_of_mem m e.1 e.2 he).symm

theorem Float64.eq_self (a : Float64) : Float64.eq a a = !a.isNaN := by
  unfold Float64.eq
  cases a.isNaN <;> simp

/-- The conditions under which `Equals` returns `true`, read off its chain of tests. -/
theorem Equals_ok_true_iff (r v : Result) :
    Equals r v = .ok true ↔
      r.Name = v.Name ∧ Iface.eq r.Summary v.Summary = .ok true ∧ r.Success = v.Success ∧
      r.HealthcheckTimestamp = v.HealthcheckTimestamp ∧ r.Message = v.Message ∧
      Float64.eq r.Duration v.Duration = true ∧ len r.Labels = len v.Labels ∧
      labelsLoop v.Labels (rangeOf r.Labels) = true := by
  unfold Equals
  by_cases h1 : r.Name = v.Name
  swap
  · simp [h1]
  cases h2 : Iface.eq r.Summary v.Summary with
  | error p => simp [h1]
  | ok b =>
    cases b
    · simp [h1]
    · by_cases h3 : r.Success = v.Success
      swap
      · simp [h1, h3]
      by_cases h4 : r.HealthcheckTimestamp = v.HealthcheckTimestamp
      swap
      · simp [h1, h3, h4]
      by_cases h5 : r.Message = v.Message
      swap
      · simp [h1, h3, h4, h5]
      cases h6 : Float64.eq r.Duration v.Duration
      · simp [h1, h3, h4, h5, Float64.ne, h6]
      · by_cases h7 : len r.Labels = len v.Labels
        swap
        · simp [h1, h3, h4, h5, Float64.ne, h6, h7]
        cases h8 : labelsLoop v.Labels (rangeOf r.Labels) <;>
          simp [h1, h3, h4, h5, Float64.ne, h6, h7, h8]

/-! ## Lemmas on labels as sets of pairs -/

theorem len_eq_length (m : Option GoMap) : len m = (rangeOf m).length := by
  cases m <;> rfl

theorem rangeOf_nodupKeys (m : Option GoMap) : ((rangeOf m).map Prod.fst).Nodup := by
  cases m with
  | none => simp [rangeOf]
  | some m => exact m.nodup

theorem rangeOf_nodup (m : Option GoMap) : (rangeOf m).Nodup :=
  List.Nodup.of_map Prod.fst (rangeOf_nodupKeys m)

theorem index_of_mem_rangeOf (m : Option GoMap) (e : String × String) (he : e ∈ rangeOf m) :
    index m e.1 = e.2 := by
  cases m with
  | none => simp [rangeOf] at he
  | some m => exact index_of_mem m e.1 e.2 he

theorem index_of_no_key (m : Option GoMap) (k : String) (h : ∀ e ∈ rangeOf m, e.1 ≠ k) :
    index m k = "" := by
  unfold index
  have hf : (rangeOf m).find? (fun e => e.1 == k) = none := by
    rw [List.find?_eq_none]
    intro e he
    simpa using h e he
  rw [hf]

theorem mem_of_index_ne_empty (m : Option GoMap) (k : String) (h : index m k ≠ "") :
    (k, index m k) ∈ rangeOf m := by
  unfold index at h ⊢
  cases hf : (rangeOf m).find? (fun e => e.1 == k) with
  | none => rw [hf] at h; exact absurd rfl h
  | some e =>
    have hk : e.1 = k := by simpa using List.find?_some hf
    have he : e ∈ rangeOf m := List.mem_of_find?_eq_some hf
    simp only
    rw [← hk]
    exact he

theorem index_congr (m n : Option GoMap) (h : samePairs m n) (k : String) :
    index m k = index n k := by
  by_cases hk : ∃ e ∈ rangeOf m, e.1 = k
  · obtain ⟨e, he, rfl⟩ := hk
    rw [index_of_mem_rangeOf m e he, index_of_mem_rangeOf n e ((h e).mp he)]
  · have h1 : ∀ e ∈ rangeOf m, e.1 ≠ k := fun e he hek => hk ⟨e, he, hek⟩
    have h2 : ∀ e ∈ rangeOf n, e.1 ≠ k := fun e he => h1 e ((h e).mpr he)
    rw [index_of_no_key m k h1, index_of_no_key n k h2]

theorem samePairs_perm (m n : Option GoMap) (h : samePairs m n) :
    (rangeOf m).Perm (rangeOf n) :=
  (List.perm_ext_iff_of_nodup (rangeOf_nodup m) (rangeOf_nodup n)).mpr h

theorem Equals_of_samePairs (r v : Result) (hs : scalarsEqual r v)
    (hl : samePairs r.Labels v.Labels) : Equals r v = .ok true := by
  obtain ⟨h1, h2, h3, h4, h5, h6⟩ := hs
  rw [Equals_ok_true_iff]
  refine ⟨h1, h2, h3, h4, h5, h6, ?_, ?_⟩
  · rw [len_eq_length, len_eq_length]
    exact (samePairs_perm _ _ hl).length_eq
  · rw [labelsLoop_eq_true_iff]
    intro e he
    exact (index_of_mem_rangeOf v.Labels e ((hl e).mp he)).symm

theorem samePairs_of_Equals (r v : Result) (hne : ∀ e ∈ rangeOf r.Labels, e.2 ≠ "")
    (h : Equals r v = .ok true) : samePairs r.Labels v.Labels := by
  rw [Equals_ok_true_iff] at h
  obtain ⟨-, -, -, -, -, -, hlen, hloop⟩ := h
  rw [labelsLoop_eq_true_iff] at hloop
  rw [len_eq_length, len_eq_length] at hlen
  have hsub : rangeOf r.Labels ⊆ rangeOf v.Labels := by
    intro e he
    have h1 : index v.Labels e.1 ≠ "" := by
      rw [← hloop e he]
      exact hne e he
    have h2 := mem_of_index_ne_empty v.Labels e.1 h1
    rw [← hloop e he] at h2
    exact h2
  have hperm : (rangeOf r.Labels).Perm (rangeOf v.Labels) :=
    (List.subperm_of_subset (rangeOf_nodup r.Labels) hsub).perm_of_length_le (le_of_eq hlen.symm)
  intro e
  exact hperm.mem_iff

theorem Float64.eq_symm_float (a b : Float64) : Float64.eq a b = Float64.eq b a := by
  unfold Float64.eq
  rw [Bool.and_comm (!a.isNaN), Bool.and_comm a.isZero]
  congr 2
  exact Bool.beq_comm

theorem Iface.eq_symm_iface (a b : Iface) : Iface.eq a b = Iface.eq b a := by
  cases a <;> cases b <;> simp only [Iface.eq] <;> try rfl
  case str.str s x t y => rw [Bool.beq_comm (a := s), Bool.beq_comm (a := x)]
  case int.int s m t n => rw [Bool.beq_comm (a := s), Bool.beq_comm (a := m)]
  case boolean.boolean s p t q => rw [Bool.beq_comm (a := s), Bool.beq_comm (a := p)]
  case float.float s f t g => rw [Bool.beq_comm (a := s), Float64.eq_symm_float]
  case pointer.pointer s m t n => rw [Bool.beq_comm (a := s), Bool.beq_comm (a := m)]
  case uncomparable.uncomparable s t =>
    by_cases h : s = t
    · subst h; rfl
    · have h2 : ¬ t = s := fun h3 => h h3.symm
      simp [h, h2]

theorem scalarsEqual_symm (r v : Result) (h : scalarsEqual r v) : scalarsEqual v r := by
  obtain ⟨h1, h2, h3, h4, h5, h6⟩ := h
  refine ⟨h1.symm, ?_, h3.symm, h4.symm, h5.symm, ?_⟩
  · rw [Iface.eq_symm_iface]; exact h2
  · rw [Float64.eq_symm_float]; exact h6


theorem labelsLoop_perm (vLabels : Option GoMap) (l l' : List (String × String))
    (h : l.Perm l') : labelsLoop vLabels l = labelsLoop vLabels l' := by
  rw [Bool.eq_iff_iff, labelsLoop_eq_true_iff, labelsLoop_eq_true_iff]
  exact ⟨fun k e he => k e (h.mem_iff.mpr he), fun k e he => k e (h.mem_iff.mp he)⟩

theorem labelsLoop_congr (a b : Option GoMap) (h : samePairs a b)
    (l : List (String × String)) : labelsLoop a l = labelsLoop b l := by
  rw [Bool.eq_iff_iff, labelsLoop_eq_true_iff, labelsLoop_eq_true_iff]
  constructor
  · intro k e he
    rw [← index_congr a b h]
    exact k e he
  · intro k e he
    rw [index_congr a b h]
    exact k e he

/-- The answer of `Equals` does not depend on the order in which the entries of the
argument's labels are listed: `v.Labels[k]` is a lookup. -/
theorem Equals_argument_order (r v : Result) (n n' : GoMap) (h : n.entries.Perm n'.entries) :
    Equals r { v with Labels := some n } = Equals r { v with Labels := some n' } := by
  have hlen : len (some n) = len (some n') := h.length_eq
  have hloop : labelsLoop (some n) (rangeOf r.Labels) = labelsLoop (some n') (rangeOf r.Labels) :=
    labelsLoop_congr (some n) (some n') (fun _ => h.mem_iff) (rangeOf r.Labels)
  simp only [Equals, hlen, hloop]

/-! ## Lemmas on the calls made by the loops -/

section lemmas
variable {W : Type}

theorem stopCalls_emit (s : State W) (e : Event) :
    stopCalls (s.emit e).trace = stopCalls s.trace ++ (e.asStop).toList := by
  cases h : e.asStop <;> simp [State.emit, stopCalls, List.filterMap_append, h]

theorem addCalls_emit (s : State W) (e : Event) :
    addCalls (s.emit e).trace = addCalls s.trace ++ (e.asAdd).toList := by
  cases h : e.asAdd <;> simp [State.emit, addCalls, List.filterMap_append, h]

theorem pushCalls_emit (j : Nat) (s : State W) (e : Event) :
    pushCalls j (s.emit e).trace = pushCalls j s.trace ++ (e.asPush j).toList := by
  cases h : e.asPush j <;> simp [State.emit, pushCalls, List.filterMap_append, h]

theorem pushLoop_frame (m : Result) (es : List (Exporter W)) (i : Nat) (s : State W) :
    (pushLoop m es i s).ChanResult = s.ChanResult ∧ (pushLoop m es i s).alive = s.alive ∧
    (pushLoop m es i s).dying = s.dying ∧ (pushLoop m es i s).dead = s.dead ∧
    stopCalls (pushLoop m es i s).trace = stopCalls s.trace ∧
    addCalls (pushLoop m es i s).trace = addCalls s.trace := by
  induction es generalizing i s with
  | nil => simp [pushLoop]
  | cons e rest ih =>
    simp only [pushLoop]
    obtain ⟨h1, h2, h3, h4, h5, h6⟩ := ih (i + 1)
      ({ s with world := (e.Push m s.world).1 }.emit (Event.push i m (e.Push m s.world).2))
    refine ⟨h1, h2, h3, h4, ?_, ?_⟩
    · rw [h5, stopCalls_emit]; simp [Event.asStop]
    · rw [h6, addCalls_emit]; simp [Event.asAdd]

theorem pushLoop_pushCalls (m : Result) (es : List (Exporter W)) (i j : Nat) (s : State W) :
    pushCalls j (pushLoop m es i s).trace =
      pushCalls j s.trace ++ (if i ≤ j ∧ j < i + es.length then [m] else []) := by
  induction es generalizing i s with
  | nil => simp [pushLoop]
  | cons e rest ih =>
    simp only [pushLoop]
    rw [ih, pushCalls_emit]
    simp only [Event.asPush, List.length_cons, List.append_assoc]
    congr 1
    by_cases hij : i = j
    · subst hij
      simp
    · by_cases h2 : i ≤ j ∧ j < i + (rest.length + 1)
      · have h3 : i + 1 ≤ j ∧ j < i + 1 + rest.length := by omega
        simp [hij, h2, h3]
      · have h3 : ¬ (i + 1 ≤ j ∧ j < i + 1 + rest.length) := by omega
        simp [hij, h2, h3]


theorem onMessage_some (c : Component W) (m : Result) (s : State W) :
    ∃ s', onMessage c (some m) s = .ok s' ∧ s'.ChanResult = s.ChanResult ∧
      s'.alive = s.alive ∧ s'.dying = s.dying ∧ s'.dead = s.dead ∧
      stopCalls s'.trace = stopCalls s.trace ∧
      addCalls s'.trace = addCalls s.trace ++ [some m] ∧
      ∀ j, pushCalls j s'.trace =
        pushCalls j s.trace ++ (if j < c.Exporters.length then [m] else []) := by
  refine ⟨_, rfl, ?_⟩
  obtain ⟨h1, h2, h3, h4, h5, h6⟩ := pushLoop_frame m c.Exporters 0
    (if m.Success then
        ({ s with world := c.MemoryStore.Add (some m) s.world }.emit
          (Event.storeAdd (some m))).emit (Event.info "Healthcheck successful"
          [("name", m.Name), ("date", c.timestampString m)])
      else
        ({ s with world := c.MemoryStore.Add (some m) s.world }.emit
          (Event.storeAdd (some m))).emit (Event.info "healthcheck failed"
          [("name", m.Name), ("extra", m.Message), ("date", c.timestampString m)]))
  refine ⟨?_, ?_, ?_, ?_, ?_, ?_, ?_⟩
  · rw [h1]; split <;> rfl
  · rw [h2]; split <;> rfl
  · rw [h3]; split <;> rfl
  · rw [h4]; split <;> rfl
  · rw [h5]; split <;> simp [stopCalls_emit, Event.asStop]
  · rw [h6]; split <;> simp [addCalls_emit, Event.asAdd]
  · intro j
    rw [pushLoop_pushCalls]
    split <;> simp [pushCalls_emit, Event.asPush]

theorem iteration_stopCalls (c : Component W) (sel : Select) (s s' : State W)
    (h : iteration c sel s = .ok s') : stopCalls s'.trace = stopCalls s.trace := by
  unfold iteration at h
  split at h
  · cases h; rfl
  · cases sel with
    | message =>
      simp only at h
      cases hc : s.ChanResult with
      | nil => rw [hc] at h; cases h; rfl
      | cons m rest =>
        rw [hc] at h
        cases m with
        | none => simp [onMessage] at h
        | some m =>
          obtain ⟨s1, h1, -, -, -, -, h5, -⟩ := onMessage_some c m { s with ChanResult := rest }
          simp only at h
          rw [h1] at h
          cases h
          exact h5
    | dying =>
      simp only at h
      split at h
      · cases h
        unfold State.goroutineReturns
        split <;> rfl
      · cases h; rfl

theorem drain_stopCalls (c : Component W) (sched : List Select) (s s' : State W)
    (h : drain c sched s = .ok s') : stopCalls s'.trace = stopCalls s.trace := by
  induction sched generalizing s with
  | nil => simp [drain] at h; rw [h]
  | cons sel rest ih =>
    simp only [drain] at h
    cases hi : iteration c sel s with
    | error p => rw [hi] at h; cases h
    | ok s1 =>
      rw [hi] at h
      rw [ih s1 h, iteration_stopCalls c sel s s1 hi]

theorem stopLoop_spec (es : List (Exporter W)) (i : Nat) (s : State W) :
    stopCalls (stopLoop es i s).1.trace =
      stopCalls s.trace ++
        ((stopOutcomes es s.world).enumFrom i).take (leadingOk (stopOutcomes es s.world) + 1) := by
  induction es generalizing i s with
  | nil => simp [stopLoop, stopOutcomes]
  | cons e rest ih =>
    simp only [stopLoop, stopOutcomes]
    cases he : (e.Stop s.world).2 with
    | some x => simp [stopCalls_emit, Event.asStop, leadingOk, he]
    | none =>
      simp only [leadingOk]
      rw [ih, stopCalls_emit]
      simp [Event.asStop, State.emit, List.enumFrom, he]


theorem stopLoop_none (es : List (Exporter W)) (i : Nat) (s : State W)
    (h : ∀ o ∈ stopOutcomes es s.world, o = none) : (stopLoop es i s).2 = none := by
  induction es generalizing i s with
  | nil => rfl
  | cons e rest ih =>
    simp only [stopOutcomes, List.mem_cons, forall_eq_or_imp] at h
    simp only [stopLoop]
    rw [h.1]
    exact ih _ _ h.2

theorem stopLoop_first (es : List (Exporter W)) (i : Nat) (s : State W)
    (pre post : List (Option GoError)) (x : GoError)
    (h : stopOutcomes es s.world = pre ++ some x :: post) (hpre : ∀ o ∈ pre, o = none) :
    (stopLoop es i s).2 = some (GoError.withMessage "Fail to stop an exporter" x) := by
  induction es generalizing i s pre with
  | nil => simp [stopOutcomes] at h
  | cons e rest ih =>
    simp only [stopOutcomes] at h
    simp only [stopLoop]
    cases pre with
    | nil =>
      simp only [List.nil_append, List.cons.injEq] at h
      rw [h.1]
      rfl
    | cons p pre =>
      simp only [List.cons_append, List.cons.injEq] at h
      have hp : p = none := hpre p (List.mem_cons_self _ _)
      rw [h.1, hp]
      exact ih _ _ pre h.2 (fun o ho => hpre o (List.mem_cons_of_mem _ ho))

theorem exists_first_failure (outs : List (Option GoError)) (h : ∃ o ∈ outs, o ≠ none) :
    ∃ pre x post, outs = pre ++ some x :: post ∧ ∀ o ∈ pre, o = none := by
  induction outs with
  | nil => simp at h
  | cons o rest ih =>
    cases o with
    | some x => exact ⟨[], x, rest, rfl, by simp⟩
    | none =>
      obtain ⟨pre, x, post, h1, h2⟩ := ih (by simpa using h)
      refine ⟨none :: pre, x, post, by simp [h1], ?_⟩
      intro o ho
      rcases List.mem_cons.mp ho with h3 | h3
      · exact h3
      · exact h2 o h3

theorem leadingOk_all_none (outs : List (Option GoError)) (h : ∀ o ∈ outs, o = none) :
    leadingOk outs = outs.length := by
  induction outs with
  | nil => rfl
  | cons o rest ih =>
    simp only [List.mem_cons, forall_eq_or_imp] at h
    rw [h.1]
    simp [leadingOk, ih h.2]

theorem stopOutcomes_length (es : List (Exporter W)) (w : W) :
    (stopOutcomes es w).length = es.length := by
  induction es generalizing w with
  | nil => rfl
  | cons e rest ih => simp [stopOutcomes, ih]

theorem enum_all_none (outs : List (Option GoError)) (h : ∀ o ∈ outs, o = none) (i : Nat) :
    outs.enumFrom i = (List.range' i outs.length).map (fun j => (j, none)) := by
  induction outs generalizing i with
  | nil => rfl
  | cons o rest ih =>
    simp only [List.mem_cons, forall_eq_or_imp] at h
    rw [h.1]
    simp [List.enumFrom, List.range', ih h.2]

end lemmas

section callLemmas
variable {W : Type}

theorem calls_emit (s : State W) (e : Event) :
    calls (s.emit e).trace = calls s.trace ++ (e.asCall).toList := by
  cases h : e.asCall <;> simp [State.emit, calls, List.filterMap_append, h]

theorem pushLoop_calls (m : Result) (es : List (Exporter W)) (i : Nat) (s : State W) :
    calls (pushLoop m es i s).trace =
      calls s.trace ++ (List.range' i es.length).map (fun j => Call.push j m) := by
  induction es generalizing i s with
  | nil => simp [pushLoop]
  | cons e rest ih =>
    simp only [pushLoop]
    rw [ih, calls_emit]
    simp [Event.asCall, List.range'_succ]

theorem onMessage_calls (c : Component W) (m : Result) (s : State W) :
    ∃ s', onMessage c (some m) s = .ok s' ∧ s'.ChanResult = s.ChanResult ∧
      s'.alive = s.alive ∧ s'.dying = s.dying ∧ s'.dead = s.dead ∧
      calls s'.trace = calls s.trace ++ fanOut c.Exporters.length m := by
  refine ⟨_, rfl, ?_⟩
  obtain ⟨h1, h2, h3, h4, -, -⟩ := pushLoop_frame m c.Exporters 0
    (if m.Success then
        ({ s with world := c.MemoryStore.Add (some m) s.world }.emit
          (Event.storeAdd (some m))).emit (Event.info "Healthcheck successful"
          [("name", m.Name), ("date", c.timestampString m)])
      else
        ({ s with world := c.MemoryStore.Add (some m) s.world }.emit
          (Event.storeAdd (some m))).emit (Event.info "healthcheck failed"
          [("name", m.Name), ("extra", m.Message), ("date", c.timestampString m)]))
  refine ⟨?_, ?_, ?_, ?_, ?_⟩
  · rw [h1]; split <;> rfl
  · rw [h2]; split <;> rfl
  · rw [h3]; split <;> rfl
  · rw [h4]; split <;> rfl
  · rw [pushLoop_calls, fanOut, List.range_eq_range']
    split <;> simp [calls_emit, Event.asCall]

theorem iteration_message_calls (c : Component W) (m : Result) (rest : List (Option Result))
    (s : State W) (halive : s.alive ≠ 0) (hin : s.ChanResult = some m :: rest) :
    ∃ s', iteration c Select.message s = .ok s' ∧ s'.ChanResult = rest ∧
      s'.alive = s.alive ∧ s'.dying = s.dying ∧ s'.dead = s.dead ∧
      calls s'.trace = calls s.trace ++ fanOut c.Exporters.length m := by
  obtain ⟨s', h1, h2, h3, h4, h5, h6⟩ := onMessage_calls c m { s with ChanResult := rest }
  refine ⟨s', ?_, h2, h3, h4, h5, h6⟩
  unfold iteration
  rw [if_neg halive]
  simp only [hin]
  exact h1

theorem drain_messages_calls (c : Component W) (rs : List Result)
    (rest : List (Option Result)) (s : State W) (halive : s.alive ≠ 0)
    (hin : s.ChanResult = rs.map some ++ rest) :
    ∃ s', drain c (List.replicate rs.length Select.message) s = .ok s' ∧
      s'.ChanResult = rest ∧ s'.alive = s.alive ∧ s'.dying = s.dying ∧ s'.dead = s.dead ∧
      calls s'.trace = calls s.trace ++ rs.flatMap (fanOut c.Exporters.length) := by
  induction rs generalizing s with
  | nil => exact ⟨s, rfl, by simpa using hin, rfl, rfl, rfl, by simp⟩
  | cons r rs ih =>
    obtain ⟨s1, h1, h2, h3, h4, h5, h6⟩ :=
      iteration_message_calls c r (rs.map some ++ rest) s halive (by simpa using hin)
    obtain ⟨s', k1, k2, k3, k4, k5, k6⟩ := ih s1 (by rw [h3]; exact halive) h2
    refine ⟨s', ?_, k2, k3.trans h3, k4.trans h4, k5.trans h5, ?_⟩
    · simp only [List.length_cons, List.replicate_succ, drain, h1]
      exact k1
    · rw [k6, h6]; simp

theorem drain_of_not_alive (c : Component W) (sched : List Select) (s : State W)
    (h : s.alive = 0) : drain c sched s = .ok s := by
  induction sched with
  | nil => rfl
  | cons sel rest ih => simp [drain, iteration, h, ih]

end callLemmas

section worldLemmas
variable {W : Type}

theorem applyCalls_append (c : Component W) (cs ds : List Call) (w : W) :
    applyCalls c (cs ++ ds) w = applyCalls c ds (applyCalls c cs w) := by
  simp [applyCalls, List.foldl_append]

theorem pushLoop_world (c : Component W) (m : Result) (es pre : List (Exporter W))
    (s : State W) (h : c.Exporters = pre ++ es) :
    (pushLoop m es pre.length s).world =
      applyCalls c ((List.range' pre.length es.length).map (fun j => Call.push j m)) s.world := by
  induction es generalizing pre s with
  | nil => simp [pushLoop, applyCalls]
  | cons e rest ih =>
    have hget : c.Exporters[pre.length]? = some e := by
      rw [h, List.getElem?_append_right (Nat.le_refl _)]
      simp
    have h2 : c.Exporters = (pre ++ [e]) ++ rest := by rw [h]; simp
    have ih2 := ih (pre ++ [e])
      ({ s with world := (e.Push m s.world).1 }.emit (Event.push pre.length m (e.Push m s.world).2))
      h2
    simp only [List.length_append, List.length_singleton] at ih2
    simp only [pushLoop, List.length_cons, List.range'_succ, List.map_cons]
    rw [ih2]
    simp [applyCalls, Call.apply, hget, State.emit]

theorem onMessage_world (c : Component W) (m : Result) (s s' : State W)
    (h : onMessage c (some m) s = .ok s') :
    s'.world = applyCalls c (fanOut c.Exporters.length m) s.world := by
  simp only [onMessage] at h
  cases h
  rw [show (fanOut c.Exporters.length m) =
      [Call.add (some m)] ++ (List.range' 0 c.Exporters.length).map (fun j => Call.push j m) by
    simp [fanOut, List.range_eq_range'], applyCalls_append]
  have hp := pushLoop_world c m c.Exporters []
  simp only [List.length_nil, List.nil_append, forall_const] at hp
  rw [hp]
  split <;> simp [applyCalls, Call.apply, State.emit]

theorem iteration_message_world (c : Component W) (m : Result)
    (rest : List (Option Result)) (s s' : State W) (halive : s.alive ≠ 0)
    (hin : s.ChanResult = some m :: rest) (h : iteration c Select.message s = .ok s') :
    s'.world = applyCalls c (fanOut c.Exporters.length m) s.world := by
  unfold iteration at h
  rw [if_neg halive] at h
  simp only [hin] at h
  exact onMessage_world c m { s with ChanResult := rest } s' h

theorem drain_messages_world (c : Component W) (rs : List Result)
    (rest : List (Option Result)) (s s' : State W) (halive : s.alive ≠ 0)
    (hin : s.ChanResult = rs.map some ++ rest)
    (h : drain c (List.replicate rs.length Select.message) s = .ok s') :
    s'.world = applyCalls c (rs.flatMap (fanOut c.Exporters.length)) s.world := by
  induction rs generalizing s with
  | nil =>
    simp only [List.length_nil, List.replicate_zero, drain] at h
    cases h
    simp [applyCalls]
  | cons r rs ih =>
    obtain ⟨s1, h1, h2, h3, -, -, -⟩ :=
      iteration_message_calls c r (rs.map some ++ rest) s halive (by simpa using hin)
    simp only [List.length_cons, List.replicate_succ, drain, h1] at h
    rw [ih s1 (by rw [h3]; exact halive) h2 h,
      iteration_message_world c r (rs.map some ++ rest) s s1 halive (by simpa using hin) h1,
      List.flatMap_cons, applyCalls_append]

theorem apply_pushSucceeds (c : Component W) (k : Call) (w : W) :
    k.apply c.pushSucceeds w = k.apply c w := by
  cases k with
  | storeStart => rfl
  | add message => rfl
  | push i message =>
    simp only [Call.apply, Component.pushSucceeds, List.getElem?_map]
    cases c.Exporters[i]? <;> rfl
  | stop i =>
    simp only [Call.apply, Component.pushSucceeds, List.getElem?_map]
    cases c.Exporters[i]? <;> rfl

theorem applyCalls_pushSucceeds (c : Component W) (cs : List Call) (w : W) :
    applyCalls c.pushSucceeds cs w = applyCalls c cs w := by
  induction cs generalizing w with
  | nil => rfl
  | cons k rest ih =>
    simp only [applyCalls, List.foldl_cons] at ih ⊢
    rw [apply_pushSucceeds, ih]

theorem drain_messages_projections (c : Component W) (rs : List Result)
    (rest : List (Option Result)) (s : State W) (halive : s.alive ≠ 0)
    (hin : s.ChanResult = rs.map some ++ rest) :
    ∃ s', drain c (List.replicate rs.length Select.message) s = .ok s' ∧
      s'.ChanResult = rest ∧
      addCalls s'.trace = addCalls s.trace ++ rs.map some ∧
      (∀ i, i < c.Exporters.length → pushCalls i s'.trace = pushCalls i s.trace ++ rs) ∧
      (∀ i, c.Exporters.length ≤ i → pushCalls i s'.trace = pushCalls i s.trace) := by
  induction rs generalizing s with
  | nil =>
    refine ⟨s, rfl, ?_, ?_, ?_, ?_⟩
    · simpa using hin
    · simp
    · intro i _; simp
    · intro i _; rfl
  | cons r rs ih =>
    obtain ⟨s1, h1, hc, ha, -, -, -, hadd, hpush⟩ :=
      onMessage_some c r { s with ChanResult := rs.map some ++ rest }
    have hit : iteration c Select.message s = .ok s1 := by
      unfold iteration
      rw [if_neg halive]
      simp only [hin, List.map_cons, List.cons_append]
      exact h1
    obtain ⟨s', h2, hc2, hadd2, hpush2, hpush3⟩ := ih s1 (by rw [ha]; exact halive) hc
    refine ⟨s', ?_, hc2, ?_, ?_, ?_⟩
    · simp only [List.length_cons, List.replicate_succ, drain, hit]
      exact h2
    · rw [hadd2, hadd]; simp
    · intro i hi
      rw [hpush2 i hi, hpush i]
      simp [hi]
    · intro i hi
      rw [hpush3 i hi, hpush i]
      simp [Nat.not_lt.mpr hi]

end worldLemmas

/-- A component started once can always be stopped: after `Kill`, the termination branch
is ready, and once the loop goroutine has taken it the tomb is dead, so `Wait` returns. -/
theorem drain_dying_exits {W : Type} (c : Component W) (s : State W) (h : s.alive = 1) :
    drain c [Select.dying] s.Kill =
      .ok { s with alive := 0, dying := true, dead := true } := by
  simp [drain, iteration, State.Kill, State.goroutineReturns, h]

/-! ## The claims -/

/-- Claim C1, evaluated on the code: with labels `{"a": ""}` on the receiver and
`{"b": ""}` on the argument, all other fields equal, `Equals` returns true although the two
labels maps are not equal as sets of pairs: the key `a` does not exist in the other map. -/
theorem Equals_true_on_unequal_labels :
    Equals (sample (some labelsA)) (sample (some labelsB)) = .ok true ∧
      specLabelsEqual (some labelsA) (some labelsB) = false ∧
      specEquals (sample (some labelsA)) (sample (some labelsB)) = false := by
  decide

/-- Claim C2, evaluated on the code: with labels `{"a": ""}` on `a` and `{"b": "x"}` on
`b`, all other fields equal, `a.Equals(b)` is true and `b.Equals(a)` is false. -/
theorem Equals_not_symmetric :
    Equals (sample (some labelsA)) (sample (some labelsBx)) = .ok true ∧
      Equals (sample (some labelsBx)) (sample (some labelsA)) = .ok false := by
  decide

/-- Claim C3, evaluated on the code: with labels `{"a": ""}` on `a`, `{"b": ""}` on `b` and
`{"a": "y"}` on `c`, all other fields equal, `a.Equals(b)` and `b.Equals(c)` are true and
`a.Equals(c)` is false. -/
theorem Equals_not_transitive :
    Equals (sample (some labelsA)) (sample (some labelsB)) = .ok true ∧
      Equals (sample (some labelsB)) (sample (some labelsAy)) = .ok true ∧
      Equals (sample (some labelsA)) (sample (some labelsAy)) = .ok false := by
  decide

/-- Claim C4, evaluated on the code: `a` and `b` both carry the labels `{"a": ""}` and are
equal; altering the key of that one label pair of `b` from `a` to `b` and leaving
everything else as it is gives a Result to which `a` is still equal. -/
theorem Equals_survives_altered_key :
    Equals (sample (some labelsA)) (sample (some labelsA)) = .ok true ∧
      rangeOf (sample (some labelsA)).Labels = [("a", "")] ∧
      rangeOf (sample (some labelsB)).Labels = [("b", "")] ∧
      sample (some labelsB) = { sample (some labelsA) with Labels := some labelsB } ∧
      Equals (sample (some labelsA)) (sample (some labelsB)) = .ok true := by
  decide

/-- Claim C5 as stated fails: a Result whose duration is NaN is not equal to itself,
because `r.Duration != v.Duration` holds when both are NaN; likewise a Result whose summary
holds a NaN, while on a Result whose summary is a slice the comparison of the summaries
panics. -/
theorem Equals_not_reflexive :
    sampleNaN.Duration.isNaN = true ∧ Equals sampleNaN sampleNaN = .ok false ∧
      Equals sampleNaNSummary sampleNaNSummary = .ok false ∧
      Equals sampleSliceSummary sampleSliceSummary =
        .error "runtime error: comparing uncomparable type []string" := by
  decide

/-- Claim C5, amended: for every Result whose duration is not NaN and whose summary
compares equal to itself under the `==` of interface values, `a.Equals(a)` returns
true. -/
theorem Equals_refl (a : Result) (hd : a.Duration.isNaN = false)
    (hs : Iface.eq a.Summary a.Summary = .ok true) : Equals a a = .ok true := by
  simp [Equals, hs, Float64.ne, Float64.eq_self, hd, labelsLoop_self]

/-- The amended claim C5 applied to the sample Result with labels `{"b": "x"}`. -/
theorem Equals_refl_witness :
    (sample (some labelsBx)).Duration.isNaN = false ∧
      Iface.eq (sample (some labelsBx)).Summary (sample (some labelsBx)).Summary = .ok true ∧
      Equals (sample (some labelsBx)) (sample (some labelsBx)) = .ok true :=
  ⟨by decide, by decide, Equals_refl (sample (some labelsBx)) (by decide) (by decide)⟩

/-- Claim C6: for every check source, duration and clock reading, `NewResult` with an
error gives success false and the error's text as message (the text `timeout` gives the
message `timeout`), and `NewResult` without error gives success true and the message
`success`. -/
theorem NewResult_message (healthcheck : Healthcheck) (duration : Float64) (now : Time) :
    (∀ e : GoError,
      (NewResult healthcheck duration (some e) now).Success = false ∧
      (NewResult healthcheck duration (some e) now).Message = e.Error) ∧
    (NewResult healthcheck duration (some (GoError.plain "timeout")) now).Message = "timeout" ∧
    (NewResult healthcheck duration none now).Success = true ∧
    (NewResult healthcheck duration none now).Message = "success" :=
  ⟨fun _ => ⟨rfl, rfl⟩, rfl, rfl, rfl⟩

/-- Claim C7 as stated fails: built from an error whose text is empty, the Result of a
failing check has the empty message. -/
theorem NewResult_empty_message :
    (NewResult sampleCheck ⟨0⟩ (some (GoError.plain "")) ⟨0, 0⟩).Success = false ∧
      (NewResult sampleCheck ⟨0⟩ (some (GoError.plain "")) ⟨0, 0⟩).Message = "" := by
  decide

/-- Claim C7, amended: for every Result built by `NewResult` from an error whose text is
not empty, the message is the error's text and is not the empty string. -/
theorem NewResult_message_nonempty (healthcheck : Healthcheck) (duration : Float64)
    (now : Time) (e : GoError) (he : e.Error ≠ "") :
    (NewResult healthcheck duration (some e) now).Message = e.Error ∧
      (NewResult healthcheck duration (some e) now).Message ≠ "" :=
  ⟨rfl, he⟩

/-- The amended claim C7 applied to an error wrapping `timeout`. -/
theorem NewResult_message_nonempty_witness :
    (GoError.withMessage "check" (GoError.plain "timeout")).Error ≠ "" ∧
      (NewResult sampleCheck nan (some (GoError.withMessage "check" (GoError.plain "timeout")))
        ⟨1, 0⟩).Message = "check: timeout" :=
  ⟨by decide,
    (NewResult_message_nonempty sampleCheck nan ⟨1, 0⟩
      (GoError.withMessage "check" (GoError.plain "timeout")) (by decide)).1.trans (by decide)⟩

/-- Claim C8: whenever the loop goroutines have exited by the end of the schedule (so
that `Wait` returns), `Stop` returns and the `Exporter.Stop` calls it has made are those on
the exporters at positions 0, 1, ... in the order of `Component.Exporters`, one call each,
up to and including the first exporter whose `Stop` returns an error, and none after it;
when no exporter's `Stop` returns an error they are one call on each exporter, in that
order. -/
theorem Stop_fail_fast {W : Type} (c : Component W) (sched : List Select) (s s2 : State W)
    (hwait : drain c sched s.Kill = .ok s2) (hdead : s2.dead = true) :
    ∃ s' err, Stop c sched s = .ok (some (s', err)) ∧
      stopCalls s'.trace = stopCalls s.trace ++
        (stopOutcomes c.Exporters s2.world).enum.take
          (leadingOk (stopOutcomes c.Exporters s2.world) + 1) ∧
      ((∀ o ∈ stopOutcomes c.Exporters s2.world, o = none) →
        stopCalls s'.trace = stopCalls s.trace ++
          (List.range c.Exporters.length).map (fun i => (i, none))) := by
  have hs2 : stopCalls s2.trace = stopCalls s.trace := drain_stopCalls c sched s.Kill s2 hwait
  have hspec := stopLoop_spec c.Exporters 0 s2
  rw [hs2] at hspec
  refine ⟨(stopLoop c.Exporters 0 s2).1, (stopLoop c.Exporters 0 s2).2, ?_, hspec, ?_⟩
  · simp [Stop, hwait, hdead]
  · intro hall
    rw [hspec, leadingOk_all_none _ hall, enum_all_none _ hall, stopOutcomes_length,
      List.take_of_length_le (by simp), List.range_eq_range']

/-- The claim C8 applied to the component with two exporters of which the first fails to
stop and the second would stop, stopped while its loop is running: the only call is the
one on the first exporter. -/
theorem Stop_fail_fast_witness :
    drain sampleComponent [Select.dying] sampleRunning.Kill = .ok sampleStopped ∧
      sampleStopped.dead = true ∧
      ∃ s' err, Stop sampleComponent [Select.dying] sampleRunning = .ok (some (s', err)) ∧
        stopCalls s'.trace = [(0, some (GoError.plain "boom"))] := by
  obtain ⟨s', err, h1, h2, -⟩ :=
    Stop_fail_fast sampleComponent [Select.dying] sampleRunning sampleStopped rfl rfl
  exact ⟨rfl, rfl, s', err, h1, h2.trans (by decide)⟩

/-- Claim C9: whenever the loop goroutines have exited by the end of the schedule (so
that `Wait` returns), `Stop` returns, and the value it returns is an error if and only if
the `Stop` of at least one exporter returns an error; it is then the error of the first
such exporter in the order of `Component.Exporters`, annotated with the message
`Fail to stop an exporter`, so that its text is that message, a colon, a blank and the
text of the exporter's error. -/
theorem Stop_error {W : Type} (c : Component W) (sched : List Select) (s s2 : State W)
    (hwait : drain c sched s.Kill = .ok s2) (hdead : s2.dead = true) :
    ∃ s' err, Stop c sched s = .ok (some (s', err)) ∧
      (err ≠ none ↔ ∃ o ∈ stopOutcomes c.Exporters s2.world, o ≠ none) ∧
      (∀ pre x post, stopOutcomes c.Exporters s2.world = pre ++ some x :: post →
        (∀ o ∈ pre, o = none) →
        err = some (GoError.withMessage "Fail to stop an exporter" x) ∧
        (GoError.withMessage "Fail to stop an exporter" x).Error =
          "Fail to stop an exporter: " ++ x.Error) := by
  refine ⟨(stopLoop c.Exporters 0 s2).1, (stopLoop c.Exporters 0 s2).2, ?_, ?_, ?_⟩
  · simp [Stop, hwait, hdead]
  · constructor
    · intro herr
      by_contra hno
      apply herr
      apply stopLoop_none
      intro o ho
      by_contra hne
      exact hno ⟨o, ho, hne⟩
    · intro hex
      obtain ⟨pre, x, post, h1, h2⟩ := exists_first_failure _ hex
      rw [stopLoop_first c.Exporters 0 s2 pre post x h1 h2]
      simp
  · intro pre x post h1 h2
    exact ⟨stopLoop_first c.Exporters 0 s2 pre post x h1 h2, rfl⟩

/-- The claim C9 applied to the component with two exporters of which the first fails to
stop with the error `boom`. -/
theorem Stop_error_witness :
    drain sampleComponent [Select.dying] sampleRunning.Kill = .ok sampleStopped ∧
      sampleStopped.dead = true ∧
      ∃ s' err, Stop sampleComponent [Select.dying] sampleRunning = .ok (some (s', err)) ∧
        err = some (GoError.withMessage "Fail to stop an exporter" (GoError.plain "boom")) ∧
        (GoError.withMessage "Fail to stop an exporter" (GoError.plain "boom")).Error =
          "Fail to stop an exporter: boom" := by
  obtain ⟨s', err, h1, -, h3⟩ :=
    Stop_error sampleComponent [Select.dying] sampleRunning sampleStopped rfl rfl
  exact ⟨rfl, rfl, s', err, h1, (h3 [] (GoError.plain "boom") [none] rfl (by simp)).1,
    by decide⟩

/-- Claim C10: the one loop goroutine of a started component that receives the Results
`r1 .. rN` waiting at the head of the channel, one per execution of `select`, consumes
exactly them, and afterwards the store has received exactly the `Add` calls for `r1 .. rN`
in that order and each exporter of `Component.Exporters` exactly the `Push` calls for
`r1 .. rN` in that order; no `Push` is made at any other position. The calls are made: the
state of the store and of the exporters is the one reached by making, for each Result in
turn, `Add` and then `Push` on every exporter in order. -/
theorem drain_fan_out {W : Type} (c : Component W) (rs : List Result)
    (rest : List (Option Result)) (s : State W) (halive : s.alive = 1)
    (hin : s.ChanResult = rs.map some ++ rest) :
    ∃ s', drain c (List.replicate rs.length Select.message) s = .ok s' ∧
      s'.ChanResult = rest ∧
      addCalls s'.trace = addCalls s.trace ++ rs.map some ∧
      (∀ i, i < c.Exporters.length → pushCalls i s'.trace = pushCalls i s.trace ++ rs) ∧
      (∀ i, c.Exporters.length ≤ i → pushCalls i s'.trace = pushCalls i s.trace) ∧
      s'.world = applyCalls c (rs.flatMap (fanOut c.Exporters.length)) s.world := by
  have hne : s.alive ≠ 0 := by rw [halive]; decide
  obtain ⟨s', h1, h2, h3, h4, h5⟩ := drain_messages_projections c rs rest s hne hin
  exact ⟨s', h1, h2, h3, h4, h5, drain_messages_world c rs rest s s' hne hin h1⟩

/-- The claim C10 applied to the scenario of the specification: one Result named `disk`
with success true and duration 0.01 is received by a started component with two exporters;
the store receives one `Add` and each exporter one `Push` with that Result, in this
order. -/
theorem drain_fan_out_witness :
    (recordingRunning [some diskResult]).alive = 1 ∧
      (recordingRunning [some diskResult]).ChanResult = [diskResult].map some ++ [] ∧
      ∃ s', drain recordingComponent [Select.message] (recordingRunning [some diskResult]) =
          .ok s' ∧
        addCalls s'.trace = [some diskResult] ∧
        pushCalls 0 s'.trace = [diskResult] ∧ pushCalls 1 s'.trace = [diskResult] ∧
        pushCalls 2 s'.trace = [] ∧
        s'.world = ["store.Add success", "first.Push success", "second.Push success"] := by
  obtain ⟨s', h1, -, h3, h4, h5, h6⟩ :=
    drain_fan_out recordingComponent [diskResult] [] (recordingRunning [some diskResult])
      rfl rfl
  exact ⟨rfl, rfl, s', h1, h3, h4 0 (by decide), h4 1 (by decide),
    h5 2 (by decide), h6.trans (by decide)⟩

/-- Claim C11: whatever the `Push` calls of the exporters return, the one loop goroutine
of a started component that receives the Results `r1 .. rN` makes the same `Store.Add` and
`Push` calls, in the same order, as the component whose every `Push` succeeds: for each
Result in turn one `Add` and then one `Push` per exporter in the order of
`Component.Exporters`. The calls are made: both runs leave the store and the exporters in
the state reached by making exactly these calls. The loop goroutine is still alive
afterwards, and `Start` behaves the same for both components. -/
theorem push_failures_swallowed {W : Type} (c : Component W) (rs : List Result)
    (rest : List (Option Result)) (s : State W) (halive : s.alive = 1)
    (hin : s.ChanResult = rs.map some ++ rest) :
    ∃ s' sOk, drain c (List.replicate rs.length Select.message) s = .ok s' ∧
      drain c.pushSucceeds (List.replicate rs.length Select.message) s = .ok sOk ∧
      calls s'.trace = calls sOk.trace ∧
      calls s'.trace = calls s.trace ++ rs.flatMap (fanOut c.Exporters.length) ∧
      s'.world = applyCalls c (rs.flatMap (fanOut c.Exporters.length)) s.world ∧
      sOk.world = s'.world ∧
      s'.ChanResult = rest ∧ s'.alive = 1 ∧ s'.dead = s.dead ∧
      ∀ s0 : State W, Start c s0 = Start c.pushSucceeds s0 := by
  have hne : s.alive ≠ 0 := by rw [halive]; decide
  obtain ⟨s', h1, h2, h3, -, h5, h6⟩ := drain_messages_calls c rs rest s hne hin
  obtain ⟨sOk, k1, -, -, -, -, k6⟩ := drain_messages_calls c.pushSucceeds rs rest s hne hin
  have hlen : c.pushSucceeds.Exporters.length = c.Exporters.length := by
    simp [Component.pushSucceeds]
  rw [hlen] at k6
  have hw := drain_messages_world c rs rest s s' hne hin h1
  have hwOk := drain_messages_world c.pushSucceeds rs rest s sOk hne hin k1
  rw [hlen, applyCalls_pushSucceeds] at hwOk
  exact ⟨s', sOk, h1, k1, h6.trans k6.symm, h6, hw, hwOk.trans hw.symm, h2,
    h3.trans halive, h5, fun _ => rfl⟩

/-- The claim C11 applied to a component whose first exporter fails on every `Push`:
both Results still reach the store and both exporters, in order, and the loop is alive. -/
theorem push_failures_swallowed_witness :
    (recordingRunning [some diskResult, some failedResult]).alive = 1 ∧
      ∃ s', drain recordingComponent [Select.message, Select.message]
          (recordingRunning [some diskResult, some failedResult]) = .ok s' ∧
        calls s'.trace =
          [Call.add (some diskResult), Call.push 0 diskResult, Call.push 1 diskResult,
            Call.add (some failedResult), Call.push 0 failedResult, Call.push 1 failedResult] ∧
        s'.world =
          ["store.Add success", "first.Push success", "second.Push success",
            "store.Add timeout", "first.Push timeout", "second.Push timeout"] ∧
        s'.alive = 1 := by
  obtain ⟨s', sOk, h1, -, -, h4, h5, -, -, h8, -⟩ :=
    push_failures_swallowed recordingComponent [diskResult, failedResult] []
      (recordingRunning [some diskResult, some failedResult]) rfl rfl
  exact ⟨rfl, s', h1, h4.trans (by decide), h5.trans (by decide), h8⟩

/-- Claim C12: for every Result received by the one loop goroutine of a started
component, whatever its success flag, the calls made for it are `Store.Add` with that
Result first, then `Push` with that Result on the exporters at positions 0, 1, ... in the
order of `Component.Exporters`, and nothing else. The calls are made: the store and the
exporters are left in the state reached by making exactly these calls in this order. -/
theorem per_result_call_order {W : Type} (c : Component W) (m : Result)
    (rest : List (Option Result)) (s : State W) (halive : s.alive = 1)
    (hin : s.ChanResult = some m :: rest) :
    ∃ s', iteration c Select.message s = .ok s' ∧ s'.ChanResult = rest ∧
      calls s'.trace = calls s.trace ++
        Call.add (some m) :: (List.range c.Exporters.length).map (fun i => Call.push i m) ∧
      s'.world = applyCalls c
        (Call.add (some m) :: (List.range c.Exporters.length).map (fun i => Call.push i m))
        s.world ∧
      s'.alive = 1 := by
  have hne : s.alive ≠ 0 := by rw [halive]; decide
  obtain ⟨s', h1, h2, h3, -, -, h6⟩ := iteration_message_calls c m rest s hne hin
  exact ⟨s', h1, h2, h6, iteration_message_world c m rest s s' hne hin h1, h3.trans halive⟩

/-- The claim C12 applied to the Result of a failed check and two exporters: the store
comes first, then the two exporters in order. -/
theorem per_result_call_order_witness :
    (recordingRunning [some failedResult, some diskResult]).alive = 1 ∧
      ∃ s', iteration recordingComponent Select.message
          (recordingRunning [some failedResult, some diskResult]) = .ok s' ∧
        s'.ChanResult = [some diskResult] ∧
        calls s'.trace =
          [Call.add (some failedResult), Call.push 0 failedResult, Call.push 1 failedResult] ∧
        s'.world = ["store.Add timeout", "first.Push timeout", "second.Push timeout"] := by
  obtain ⟨s', h1, h2, h3, h4, -⟩ :=
    per_result_call_order recordingComponent failedResult [some diskResult]
      (recordingRunning [some failedResult, some diskResult]) rfl rfl
  exact ⟨rfl, s', h1, h2, h3.trans (by decide), h4.trans (by decide)⟩

/-- Claim C13: for every check source, duration, optional error and clock reading, the
Result built by `NewResult` has the name, summary and labels supplied by the check source,
the given duration, and as timestamp the whole seconds since the epoch of the clock
reading. -/
theorem NewResult_copies (healthcheck : Healthcheck) (duration : Float64)
    (err : Option GoError) (now : Time) :
    (NewResult healthcheck duration err now).Name = healthcheck.Name ∧
      (NewResult healthcheck duration err now).Summary = healthcheck.Summary ∧
      (NewResult healthcheck duration err now).Labels = healthcheck.GetLabels ∧
      (NewResult healthcheck duration err now).Duration = duration ∧
      (NewResult healthcheck duration err now).HealthcheckTimestamp = now.Unix ∧
      now.Unix = now.sec := by
  cases err <;> exact ⟨rfl, rfl, rfl, rfl, rfl, rfl⟩

/-- Claim C14 as stated fails: on a component whose tomb is dead (its loop has exited after
`Stop`), `Start` does not return: `c.t.Go` panics. -/
theorem Start_panics_when_dead :
    sampleStopped.dead = true ∧
      Start sampleComponent sampleStopped =
        .error "tomb.Go called after all goroutines terminated" := by
  exact ⟨rfl, rfl⟩

/-- Claim C14, amended: for every component and every state whose tomb is not dead
(whatever the store, the exporters and the contents of the channel), `Start` returns the
nil error, having started the store and launched one more loop goroutine. -/
theorem Start_returns_nil {W : Type} (c : Component W) (s : State W) (h : s.dead = false) :
    ∃ s', Start c s = .ok (s', none) ∧ s'.alive = s.alive + 1 ∧
      s'.ChanResult = s.ChanResult ∧ calls s'.trace = calls s.trace ++ [Call.storeStart] := by
  simp only [Start, State.emit, h, Bool.false_eq_true, if_false]
  refine ⟨_, rfl, rfl, rfl, ?_⟩
  simp [calls, List.filterMap_append, Event.asCall]

/-- The amended claim C14 applied to a component that is already running. -/
theorem Start_returns_nil_witness :
    sampleRunning.dead = false ∧
      ∃ s', Start sampleComponent sampleRunning = .ok (s', none) ∧ s'.alive = 2 := by
  obtain ⟨s', h1, h2, -⟩ := Start_returns_nil sampleComponent sampleRunning rfl
  exact ⟨rfl, s', h1, h2⟩

/-- Claim C15: when the one loop goroutine of a dying component takes the termination
branch, it exits at once: whatever is still waiting on the channel and whatever the later
schedule, no further call is made on the store or on an exporter, the channel keeps its
contents, and the tomb is dead, so that no later `Start` can resume the delivery. -/
theorem drop_on_shutdown {W : Type} (c : Component W) (sched : List Select) (s : State W)
    (halive : s.alive = 1) (hdying : s.dying = true) :
    ∃ s', drain c (Select.dying :: sched) s = .ok s' ∧ s'.trace = s.trace ∧
      s'.world = s.world ∧ s'.ChanResult = s.ChanResult ∧ s'.alive = 0 ∧ s'.dead = true ∧
      Start c s' = .error "tomb.Go called after all goroutines terminated" := by
  refine ⟨{ s with alive := 0, dying := true, dead := true }, ?_, rfl, rfl, rfl, rfl, rfl, ?_⟩
  · have hit : iteration c Select.dying s =
        .ok { s with alive := 0, dying := true, dead := true } := by
      simp [iteration, State.goroutineReturns, halive, hdying]
    simp only [drain, hit]
    exact drain_of_not_alive c sched _ rfl
  · simp [Start, State.emit]

/-- The claim C15 applied to a killed component with one Result waiting on the channel:
the Result stays on the channel and no call is made. -/
theorem drop_on_shutdown_witness :
    sampleRunning.Kill.alive = 1 ∧ sampleRunning.Kill.dying = true ∧
      ∃ s', drain sampleComponent [Select.dying, Select.message, Select.message]
          sampleRunning.Kill = .ok s' ∧
        s'.trace = [] ∧ s'.ChanResult = [some (sample none)] := by
  obtain ⟨s', h1, h2, -, h4, -⟩ :=
    drop_on_shutdown sampleComponent [Select.message, Select.message] sampleRunning.Kill rfl rfl
  exact ⟨rfl, rfl, s', h1, h2, h4⟩

/-- Claim C16: for every pair of Results and every two enumeration orders of the
receiver's label pairs, `Equals` gives the same answer. -/
theorem Equals_enumeration_order (r v : Result) (m m' : GoMap)
    (h : m.entries.Perm m'.entries) :
    Equals { r with Labels := some m } v = Equals { r with Labels := some m' } v := by
  have hlen : len (some m) = len (some m') := h.length_eq
  have hloop : labelsLoop v.Labels (rangeOf (some m)) = labelsLoop v.Labels (rangeOf (some m')) :=
    labelsLoop_perm v.Labels m.entries m'.entries h
  simp only [Equals, hlen, hloop]

/-- The claim C16 applied to the labels `{"a": "1", "b": "2"}` in their two orders. -/
theorem Equals_enumeration_order_witness :
    labelsAB.entries.Perm labelsBA.entries ∧
      Equals { sample none with Labels := some labelsAB } (sample (some labelsBA)) = .ok true ∧
      Equals { sample none with Labels := some labelsBA } (sample (some labelsBA)) = .ok true :=
  ⟨List.Perm.swap _ _ _,
    (Equals_enumeration_order (sample none) (sample (some labelsBA)) labelsAB labelsBA
      (List.Perm.swap _ _ _)).trans (by decide),
    by decide⟩

/-- Claim C17: for every Result `r` none of whose label values is the empty string and
every Result `v`, `r.Equals(v)` is true if and only if the six other fields compare equal
and the two labels maps contain exactly the same key/value pairs. -/
theorem Equals_iff_structural (r v : Result) (hne : ∀ e ∈ rangeOf r.Labels, e.2 ≠ "") :
    Equals r v = .ok true ↔ scalarsEqual r v ∧ samePairs r.Labels v.Labels := by
  constructor
  · intro h
    refine ⟨?_, samePairs_of_Equals r v hne h⟩
    obtain ⟨h1, h2, h3, h4, h5, h6, -, -⟩ := (Equals_ok_true_iff r v).mp h
    exact ⟨h1, h2, h3, h4, h5, h6⟩
  · intro h
    exact Equals_of_samePairs r v h.1 h.2

/-- The claim C17 applied to labels `{"a": "1", "b": "2"}` against `{"a": "y"}`: the
pairs differ and `Equals` is not true. -/
theorem Equals_iff_structural_witness :
    (∀ e ∈ rangeOf (sample (some labelsAB)).Labels, e.2 ≠ "") ∧
      scalarsEqual (sample (some labelsAB)) (sample (some labelsAy)) ∧
      ¬ samePairs (sample (some labelsAB)).Labels (sample (some labelsAy)).Labels ∧
      Equals (sample (some labelsAB)) (sample (some labelsAy)) ≠ .ok true := by
  have hne : ∀ e ∈ rangeOf (sample (some labelsAB)).Labels, e.2 ≠ "" := by decide
  have hiff := Equals_iff_structural (sample (some labelsAB)) (sample (some labelsAy)) hne
  have hno : Equals (sample (some labelsAB)) (sample (some labelsAy)) ≠ .ok true := by decide
  exact ⟨hne, ⟨rfl, rfl, rfl, rfl, rfl, rfl⟩, fun hp => hno (hiff.mpr ⟨⟨rfl, rfl, rfl, rfl, rfl, rfl⟩, hp⟩),
    hno⟩

/-- Claim C18: for every pair of Results whose six other fields compare equal and whose
labels maps contain exactly the same key/value pairs, `r.Equals(v)` is true. -/
theorem Equals_no_false_negative (r v : Result) (hs : scalarsEqual r v)
    (hl : samePairs r.Labels v.Labels) : Equals r v = .ok true :=
  Equals_of_samePairs r v hs hl

/-- The claim C18 applied to two Results with the labels `{"a": ""}`. -/
theorem Equals_no_false_negative_witness :
    scalarsEqual (sample (some labelsA)) (sample (some labelsA)) ∧
      samePairs (sample (some labelsA)).Labels (sample (some labelsA)).Labels ∧
      Equals (sample (some labelsA)) (sample (some labelsA)) = .ok true :=
  ⟨⟨rfl, rfl, rfl, rfl, rfl, rfl⟩, fun _ => Iff.rfl,
    Equals_no_false_negative (sample (some labelsA)) (sample (some labelsA))
      ⟨rfl, rfl, rfl, rfl, rfl, rfl⟩ (fun _ => Iff.rfl)⟩

/-- Claim C19: for every pair of Results whose six other fields compare equal, one with
nil labels and the other with an empty labels map, `Equals` is true in both directions. -/
theorem Equals_nil_empty (r v : Result) (m : GoMap) (hs : scalarsEqual r v)
    (hr : r.Labels = none) (hv : v.Labels = some m) (hm : m.entries = []) :
    Equals r v = .ok true ∧ Equals v r = .ok true := by
  have hp : samePairs r.Labels v.Labels := by
    intro e
    rw [hr, hv]
    simp [rangeOf, hm]
  exact ⟨Equals_of_samePairs r v hs hp,
    Equals_of_samePairs v r (scalarsEqual_symm r v hs) (fun e => (hp e).symm)⟩

/-- The claim C19 applied to the sample Result without labels and with empty labels. -/
theorem Equals_nil_empty_witness :
    scalarsEqual (sample none) (sample (some labelsEmpty)) ∧
      (sample none).Labels = none ∧ (sample (some labelsEmpty)).Labels = some labelsEmpty ∧
      labelsEmpty.entries = [] ∧
      Equals (sample none) (sample (some labelsEmpty)) = .ok true ∧
      Equals (sample (some labelsEmpty)) (sample none) = .ok true :=
  ⟨⟨rfl, rfl, rfl, rfl, rfl, rfl⟩, rfl, rfl, rfl,
    Equals_nil_empty (sample none) (sample (some labelsEmpty)) labelsEmpty
      ⟨rfl, rfl, rfl, rfl, rfl, rfl⟩ rfl rfl rfl⟩

end Cabourotte
